import Mathlib

/-!
Shallow embedding of the anomaly detection and scoring engine of the
medicaid-fraud-hunter repository (src/scanner/anomalies.py) and the peer
comparator (src/profiler/dossier.py).

Modelling conventions:
* Data frames become lists of row structures; polars `group_by` becomes
  explicit grouping over the deduplicated key list, in first-occurrence
  order (which is polars' `maintain_order` semantics; no claim depends on
  group order).
* Python floats become exact rationals (ℚ); the literals 0.5, 0.2, 0.9,
  1.4826 are embedded as the decimal fractions they denote.
* The detector functions in the source return a dict npi → list of flags;
  a dict whose keys always hold non-empty lists is modelled as the function
  from npi to the flag list it would store (empty list for absent keys).
* `RedFlag.description` and `RedFlag.evidence` are presentation-only
  strings/maps (never read by the engine) and are omitted from the model.
* Python's `set` iteration order over the merged flagged npis is
  unspecified; `scan_all` therefore takes the iteration order as an
  explicit parameter, constrained by `admissibleOrder` to enumerate
  exactly the flagged entities.
-/

namespace FraudHunter

/-- Flag kinds, from src/data/models.py `RedFlagType`. -/
inductive RedFlagType where
  | VOLUME_IMPOSSIBILITY
  | REVENUE_OUTLIER
  | BILLING_SPIKE
  | WEEKEND_AFTERHOURS
  | SUSPICIOUS_CONSISTENCY
deriving DecidableEq

/-- A red flag (src/data/models.py `RedFlag`), presentation fields omitted. -/
structure RedFlag where
  flag_type : RedFlagType
  severity : ℚ
deriving DecidableEq

/-- One row of the MonthlyAggregate table: (npi, service_month) with summed
claim count and paid amount. Months are opaque ordered keys (ℕ). -/
structure MonthlyRow where
  npi : String
  service_month : ℕ
  total_claims : ℤ
  total_paid : ℚ
deriving DecidableEq

/-- One row of the ProcedureAmountAggregate table: (npi, total_paid) with the
number of underlying line items sharing that exact amount. -/
structure ProcedureRow where
  npi : String
  total_paid : ℚ
  row_count : ℕ
deriving DecidableEq

/-- Scan result (src/data/models.py `ScanResult`); provider_name and the
unused billing fields are presentation-only and omitted. -/
structure ScanResult where
  npi : String
  overall_score : ℚ
  red_flags : List RedFlag
deriving DecidableEq

/-! Threshold constants from src/scanner/anomalies.py. -/

def MAX_CLAIMS_PER_MONTH : ℤ := 1500

def REVENUE_ZSCORE_THRESHOLD : ℚ := 3

def SPIKE_MULTIPLIER : ℚ := 5

def CONSISTENCY_RATIO_THRESHOLD : ℚ := 9/10

def CONSISTENCY_MIN_ROWS : ℕ := 30

def MIN_TOTAL_PAID : ℚ := 100000

/-- The 1.4826 consistency constant used to scale the MAD. -/
def MAD_SCALE : ℚ := 14826/10000

/-! ### Minimum-viability pre-filter (scan_all lines 53–63) -/

/-- Summed paid amount of one provider across all its monthly rows. -/
def providerTotalPaid (monthly : List MonthlyRow) (npi : String) : ℚ :=
  ((monthly.filter (fun r => r.npi = npi)).map (·.total_paid)).sum

/-- A provider qualifies when it appears in the monthly table and its summed
paid amount is at least `MIN_TOTAL_PAID` (the `provider_totals` group-by
followed by the `>= MIN_TOTAL_PAID` filter). -/
def qualifies (monthly : List MonthlyRow) (npi : String) : Bool :=
  decide (npi ∈ monthly.map (·.npi)) && decide (MIN_TOTAL_PAID ≤ providerTotalPaid monthly npi)

/-- `monthly_df.filter(pl.col("npi").is_in(qualifying_npis))`. -/
def filteredMonthly (monthly : List MonthlyRow) : List MonthlyRow :=
  monthly.filter (fun r => qualifies monthly r.npi)

/-- `procedure_df.filter(pl.col("npi").is_in(qualifying_npis))`; the
qualifying set is computed from the monthly table alone. -/
def filteredProcedure (monthly : List MonthlyRow) (procedure : List ProcedureRow) :
    List ProcedureRow :=
  procedure.filter (fun r => qualifies monthly r.npi)

/-! ### Volume-impossibility detector (lines 116–133) -/

/-- Flags of one provider from `_detect_volume_impossibility`: one flag per
monthly row whose claim count exceeds the ceiling. -/
def detect_volume_impossibility (monthly : List MonthlyRow) (npi : String) : List RedFlag :=
  (monthly.filter (fun r => r.npi = npi ∧ MAX_CLAIMS_PER_MONTH < r.total_claims)).map
    (fun r => ⟨RedFlagType.VOLUME_IMPOSSIBILITY,
      min 1 ((r.total_claims : ℚ) / ((MAX_CLAIMS_PER_MONTH : ℚ) * 3))⟩)

/-! ### Revenue-outlier detector (lines 136–190) -/

/-- Per-provider totals row of `_detect_revenue_outliers`. -/
structure ProviderTotal where
  npi : String
  total_paid_sum : ℚ
  total_claims_sum : ℤ
  paid_per_claim : ℚ
deriving DecidableEq

/-- Distinct npis of the monthly table, in first-occurrence order (group-by
keys). -/
def uniqueNpis (monthly : List MonthlyRow) : List String :=
  (monthly.map (·.npi)).dedup

/-- The `provider_totals` frame: per-provider paid and claim sums, restricted
to providers with a positive claim sum, with the paid-per-claim rate.
(The rate is computed for every row; rows with a zero claim sum are removed
by the filter before the rate is ever read, exactly as in the source.) -/
def providerTotals (monthly : List MonthlyRow) : List ProviderTotal :=
  ((uniqueNpis monthly).map (fun n =>
    let rows := monthly.filter (fun r => r.npi = n)
    let paid := (rows.map (·.total_paid)).sum
    let claims := (rows.map (·.total_claims)).sum
    ⟨n, paid, claims, paid / (claims : ℚ)⟩)).filter
    (fun t => 0 < t.total_claims_sum)

/-- Median of a list of rationals, polars style: `none` on the empty list,
middle element for odd length, mean of the two middle elements for even
length. -/
def median (l : List ℚ) : Option ℚ :=
  if l = [] then none
  else
    let s := l.insertionSort (· ≤ ·)
    let n := l.length
    some (if n % 2 = 1 then s.getD (n / 2) 0
          else (s.getD (n / 2 - 1) 0 + s.getD (n / 2) 0) / 2)

/-- The cross-provider paid-per-claim distribution. -/
def paidPerClaimValues (monthly : List MonthlyRow) : List ℚ :=
  (providerTotals monthly).map (·.paid_per_claim)

/-- `median_val` of `_detect_revenue_outliers`. -/
def medianVal (monthly : List MonthlyRow) : Option ℚ :=
  median (paidPerClaimValues monthly)

/-- `mad_val`: the median of absolute deviations from the median. -/
def madVal (monthly : List MonthlyRow) : Option ℚ :=
  match medianVal monthly with
  | none => none
  | some m => median ((paidPerClaimValues monthly).map (fun x => |x - m|))

/-- `scaled_mad = mad_val * 1.4826`, undefined when the MAD is. -/
def scaledMAD (monthly : List MonthlyRow) : Option ℚ :=
  (madVal monthly).map (· * MAD_SCALE)

/-- The severity formula `min(1.0, modified_zscore / 10.0)`. -/
def severityOfZscore (z : ℚ) : ℚ := min 1 (z / 10)

/-- Flags of one provider from `_detect_revenue_outliers`. -/
def detect_revenue_outliers (monthly : List MonthlyRow) (npi : String) : List RedFlag :=
  match medianVal monthly, madVal monthly with
  | some med, some mad =>
    if mad = 0 then []
    else
      let scaled := mad * MAD_SCALE
      ((providerTotals monthly).filter (fun t =>
          t.npi = npi ∧ REVENUE_ZSCORE_THRESHOLD < (t.paid_per_claim - med) / scaled)).map
        (fun t => ⟨RedFlagType.REVENUE_OUTLIER,
          severityOfZscore ((t.paid_per_claim - med) / scaled)⟩)
  | _, _ => []

/-! ### Billing-spike detector (lines 193–219) -/

/-- Flags of one provider from `_detect_billing_spikes`: requires at least 3
monthly rows, compares each month to the provider's own mean. -/
def detect_billing_spikes (monthly : List MonthlyRow) (npi : String) : List RedFlag :=
  let rows := (monthly.filter (fun r => r.npi = npi)).insertionSort
    (fun a b => a.service_month ≤ b.service_month)
  if rows.length < 3 then []
  else
    let avg := ((rows.map (·.total_paid)).sum) / (rows.length : ℚ)
    if avg = 0 then []
    else rows.filterMap (fun r =>
      if SPIKE_MULTIPLIER < r.total_paid / avg then
        some ⟨RedFlagType.BILLING_SPIKE, min 1 ((r.total_paid / avg) / 10)⟩
      else none)

/-! ### Suspicious-consistency detector (lines 222–265) -/

/-- The provider's rows after the `total_paid != 0` pre-filter. -/
def nonzeroRows (procedure : List ProcedureRow) (npi : String) : List ProcedureRow :=
  (procedure.filter (fun r => r.total_paid ≠ 0)).filter (fun r => r.npi = npi)

/-- `total_rows`: summed row_count over the provider's nonzero rows. -/
def totalRows (procedure : List ProcedureRow) (npi : String) : ℕ :=
  ((nonzeroRows procedure npi).map (·.row_count)).sum

/-- `top_amount_count`: the row_count of the first row after sorting
descending by row_count, i.e. the maximal row_count. -/
def topAmountCount (procedure : List ProcedureRow) (npi : String) : ℕ :=
  ((nonzeroRows procedure npi).map (·.row_count)).foldr max 0

/-- Flags of one provider from `_detect_suspicious_consistency`: at most one
flag, raised when the provider has enough rows and a dominant amount. -/
def detect_suspicious_consistency (procedure : List ProcedureRow) (npi : String) :
    List RedFlag :=
  let total := totalRows procedure npi
  let top := topAmountCount procedure npi
  if CONSISTENCY_MIN_ROWS ≤ total ∧
      CONSISTENCY_RATIO_THRESHOLD < (top : ℚ) / (total : ℚ) then
    [⟨RedFlagType.SUSPICIOUS_CONSISTENCY, min 1 ((top : ℚ) / (total : ℚ))⟩]
  else []

/-! ### Score fusion and filtering (scan_all lines 82–113) -/

/-- All flags of one provider, in the order `scan_all` concatenates them. -/
def flagsFor (monthly : List MonthlyRow) (procedure : List ProcedureRow) (npi : String) :
    List RedFlag :=
  detect_volume_impossibility monthly npi ++ detect_revenue_outliers monthly npi
    ++ detect_billing_spikes monthly npi ++ detect_suspicious_consistency procedure npi

/-- Python's `max(f.severity for f in flags)` (only ever applied to non-empty
lists; the value on `[]` is an unused default). -/
def maxSeverity : List RedFlag → ℚ
  | [] => 0
  | f :: fs => (fs.map (·.severity)).foldl max f.severity

/-- `len({f.flag_type for f in flags})`. -/
def distinctTypes (flags : List RedFlag) : ℕ :=
  ((flags.map (·.flag_type)).dedup).length

/-- `overall_score = min(1.0, max_severity * 0.5 + distinct_types * 0.2)`. -/
def overallScore (flags : List RedFlag) : ℚ :=
  min 1 (maxSeverity flags * (1/2) + (distinctTypes flags : ℚ) * (1/5))

/-- The body of the per-npi loop of `scan_all`: skip providers without flags,
build the result, keep it when the score reaches the threshold. -/
def scanRow (monthly : List MonthlyRow) (procedure : List ProcedureRow) (threshold : ℚ)
    (npi : String) : Option ScanResult :=
  let flags := flagsFor monthly procedure npi
  if flags = [] then none
  else if threshold ≤ overallScore flags then
    some ⟨npi, overallScore flags, flags⟩
  else none

/-- The descending-score comparison used by `results.sort(..., reverse=True)`. -/
def byScoreDesc (a b : ScanResult) : Prop := b.overall_score ≤ a.overall_score

instance : DecidableRel byScoreDesc := fun a b =>
  inferInstanceAs (Decidable (b.overall_score ≤ a.overall_score))

instance : IsTotal ScanResult byScoreDesc :=
  ⟨fun a b => le_total b.overall_score a.overall_score⟩

instance : IsTrans ScanResult byScoreDesc :=
  ⟨fun _ _ _ hab hbc => le_trans hbc hab⟩

/-- `scan_all`: pre-filter both tables by minimum viability, fuse the four
detectors' flags per provider, filter by the reporting threshold, and sort
the results descending by overall score (a stable sort, as in Python).
`order` is the iteration order of the merged set of flagged npis, which the
source leaves to Python's set iteration. -/
def scan_all (order : List String) (threshold : ℚ) (monthly : List MonthlyRow)
    (procedure : List ProcedureRow) : List ScanResult :=
  (order.filterMap
    (scanRow (filteredMonthly monthly) (filteredProcedure monthly procedure) threshold)).insertionSort
    byScoreDesc

/-- The set of npis holding at least one flag, as a canonical list; an
admissible iteration order is any permutation of it. -/
def flaggedNpis (monthly : List MonthlyRow) (procedure : List ProcedureRow) : List String :=
  (((filteredMonthly monthly).map (·.npi))
      ++ ((filteredProcedure monthly procedure).map (·.npi))).dedup.filter
    (fun n => flagsFor (filteredMonthly monthly) (filteredProcedure monthly procedure) n ≠ [])

/-- `order` is a possible iteration order of the merged flagged-npi set. -/
def admissibleOrder (order : List String) (monthly : List MonthlyRow)
    (procedure : List ProcedureRow) : Prop :=
  order.Perm (flaggedNpis monthly procedure)

/-! ### Peer comparator (src/profiler/dossier.py lines 141–160) -/

/-- `percentile_rank`: fraction of peers whose total is at most the
provider's total, times 100 (the comparison is inclusive). -/
def percentile_rank (providerTotal : ℚ) (peerTotals : List ℚ) : ℚ :=
  ((peerTotals.filter (fun p => p ≤ providerTotal)).length : ℚ)
    / (peerTotals.length : ℚ) * 100

/-! ### Helper lemmas -/

theorem scanRow_eq_some {m : List MonthlyRow} {p : List ProcedureRow} {θ : ℚ} {n : String}
    {res : ScanResult} :
    scanRow m p θ n = some res ↔
      flagsFor m p n ≠ [] ∧ θ ≤ overallScore (flagsFor m p n) ∧
        res = ⟨n, overallScore (flagsFor m p n), flagsFor m p n⟩ := by
  unfold scanRow
  dsimp only
  split_ifs with h1 h2
  · simp [h1]
  · simp [h1, h2, eq_comm]
  · simp [h1, h2]

theorem mem_scan_all {order : List String} {θ : ℚ} {monthly : List MonthlyRow}
    {procedure : List ProcedureRow} {res : ScanResult} :
    res ∈ scan_all order θ monthly procedure ↔
      ∃ n ∈ order,
        scanRow (filteredMonthly monthly) (filteredProcedure monthly procedure) θ n
          = some res := by
  unfold scan_all
  rw [List.mem_insertionSort, List.mem_filterMap]

theorem qualifies_true_iff {monthly : List MonthlyRow} {n : String} :
    qualifies monthly n = true ↔
      n ∈ monthly.map (·.npi) ∧ MIN_TOTAL_PAID ≤ providerTotalPaid monthly n := by
  unfold qualifies
  simp

theorem mem_filteredMonthly {monthly : List MonthlyRow} {r : MonthlyRow} :
    r ∈ filteredMonthly monthly ↔ r ∈ monthly ∧ qualifies monthly r.npi = true := by
  unfold filteredMonthly
  rw [List.mem_filter]

theorem mem_filteredProcedure {monthly : List MonthlyRow} {procedure : List ProcedureRow}
    {r : ProcedureRow} :
    r ∈ filteredProcedure monthly procedure ↔
      r ∈ procedure ∧ qualifies monthly r.npi = true := by
  unfold filteredProcedure
  rw [List.mem_filter]

theorem volume_mem_of_ne_nil {m : List MonthlyRow} {n : String}
    (h : detect_volume_impossibility m n ≠ []) : ∃ r ∈ m, r.npi = n := by
  unfold detect_volume_impossibility at h
  obtain ⟨f, hf⟩ := List.exists_mem_of_ne_nil _ h
  obtain ⟨r, hr, -⟩ := List.mem_map.1 hf
  obtain ⟨hrm, hcond⟩ := List.mem_filter.1 hr
  simp only [decide_eq_true_eq] at hcond
  exact ⟨r, hrm, hcond.1⟩

theorem providerTotals_npi_mem {m : List MonthlyRow} {t : ProviderTotal}
    (h : t ∈ providerTotals m) : t.npi ∈ m.map (·.npi) := by
  unfold providerTotals at h
  obtain ⟨hmem, -⟩ := List.mem_filter.1 h
  obtain ⟨u, hu, he⟩ := List.mem_map.1 hmem
  subst he
  unfold uniqueNpis at hu
  simpa using List.mem_dedup.1 hu

theorem revenue_mem_of_ne_nil {m : List MonthlyRow} {n : String}
    (h : detect_revenue_outliers m n ≠ []) : n ∈ m.map (·.npi) := by
  unfold detect_revenue_outliers at h
  rcases hmed : medianVal m with - | med <;> rw [hmed] at h
  · rcases hmad : madVal m with - | mad <;> rw [hmad] at h <;> simp at h
  · rcases hmad : madVal m with - | mad <;> rw [hmad] at h
    · simp at h
    · dsimp only at h
      split_ifs at h with h0
      · simp at h
      · obtain ⟨f, hf⟩ := List.exists_mem_of_ne_nil _ h
        obtain ⟨t, ht, -⟩ := List.mem_map.1 hf
        obtain ⟨htm, hcond⟩ := List.mem_filter.1 ht
        simp only [decide_eq_true_eq] at hcond
        rw [← hcond.1]
        exact providerTotals_npi_mem htm

theorem spike_mem_of_ne_nil {m : List MonthlyRow} {n : String}
    (h : detect_billing_spikes m n ≠ []) : ∃ r ∈ m, r.npi = n := by
  unfold detect_billing_spikes at h
  dsimp only at h
  split_ifs at h with h1 h2
  · simp at h
  · simp at h
  · rw [List.length_insertionSort] at h1
    have hne : m.filter (fun r => decide (r.npi = n)) ≠ [] := by
      intro hnil
      rw [hnil] at h1
      simp at h1
    obtain ⟨r, hr⟩ := List.exists_mem_of_ne_nil _ hne
    obtain ⟨hrm, hcond⟩ := List.mem_filter.1 hr
    simp only [decide_eq_true_eq] at hcond
    exact ⟨r, hrm, hcond⟩

theorem consistency_mem_of_ne_nil {p : List ProcedureRow} {n : String}
    (h : detect_suspicious_consistency p n ≠ []) : ∃ r ∈ p, r.npi = n := by
  unfold detect_suspicious_consistency at h
  dsimp only at h
  split_ifs at h with hc
  · have hne : nonzeroRows p n ≠ [] := by
      intro hnil
      have : totalRows p n = 0 := by unfold totalRows; rw [hnil]; rfl
      rw [this] at hc
      exact absurd hc.1 (by unfold CONSISTENCY_MIN_ROWS; omega)
    obtain ⟨r, hr⟩ := List.exists_mem_of_ne_nil _ hne
    unfold nonzeroRows at hr
    obtain ⟨hr1, hcond⟩ := List.mem_filter.1 hr
    obtain ⟨hr2, -⟩ := List.mem_filter.1 hr1
    exact ⟨r, hr2, by simpa using hcond⟩
  · simp at h

theorem flagsFor_nonempty_mem {m : List MonthlyRow} {p : List ProcedureRow} {n : String}
    (h : flagsFor m p n ≠ []) : n ∈ m.map (·.npi) ∨ n ∈ p.map (·.npi) := by
  by_cases h1 : detect_volume_impossibility m n = []
  · by_cases h2 : detect_revenue_outliers m n = []
    · by_cases h3 : detect_billing_spikes m n = []
      · by_cases h4 : detect_suspicious_consistency p n = []
        · exact absurd (by simp [flagsFor, h1, h2, h3, h4]) h
        · obtain ⟨r, hr, hrn⟩ := consistency_mem_of_ne_nil h4
          exact Or.inr (List.mem_map.2 ⟨r, hr, hrn⟩)
      · obtain ⟨r, hr, hrn⟩ := spike_mem_of_ne_nil h3
        exact Or.inl (List.mem_map.2 ⟨r, hr, hrn⟩)
    · exact Or.inl (revenue_mem_of_ne_nil h2)
  · obtain ⟨r, hr, hrn⟩ := volume_mem_of_ne_nil h1
    exact Or.inl (List.mem_map.2 ⟨r, hr, hrn⟩)

theorem admissibleOrder_mem {order : List String} {monthly : List MonthlyRow}
    {procedure : List ProcedureRow} (h : admissibleOrder order monthly procedure)
    (n : String) :
    n ∈ order ↔
      flagsFor (filteredMonthly monthly) (filteredProcedure monthly procedure) n ≠ [] := by
  rw [h.mem_iff]
  unfold flaggedNpis
  rw [List.mem_filter]
  constructor
  · rintro ⟨-, hf⟩
    simpa using hf
  · intro hf
    refine ⟨?_, by simpa using hf⟩
    rw [List.mem_dedup, List.mem_append]
    exact flagsFor_nonempty_mem hf

theorem volume_severity_nonneg {m : List MonthlyRow} {n : String} {f : RedFlag}
    (h : f ∈ detect_volume_impossibility m n) : 0 ≤ f.severity := by
  unfold detect_volume_impossibility at h
  obtain ⟨r, hr, he⟩ := List.mem_map.1 h
  obtain ⟨-, hcond⟩ := List.mem_filter.1 hr
  simp only [decide_eq_true_eq] at hcond
  rw [← he]
  refine le_min (by norm_num) (div_nonneg ?_ (by norm_num [MAX_CLAIMS_PER_MONTH]))
  have h0 : (0 : ℤ) ≤ r.total_claims :=
    le_of_lt (lt_trans (by norm_num [MAX_CLAIMS_PER_MONTH]) hcond.2)
  exact_mod_cast h0

theorem revenue_severity_nonneg {m : List MonthlyRow} {n : String} {f : RedFlag}
    (h : f ∈ detect_revenue_outliers m n) : 0 ≤ f.severity := by
  unfold detect_revenue_outliers at h
  rcases hmed : medianVal m with - | med <;> rw [hmed] at h
  · rcases hmad : madVal m with - | mad <;> rw [hmad] at h <;> simp at h
  · rcases hmad : madVal m with - | mad <;> rw [hmad] at h
    · simp at h
    · dsimp only at h
      split_ifs at h with h0
      · simp at h
      · obtain ⟨t, ht, he⟩ := List.mem_map.1 h
        obtain ⟨-, hcond⟩ := List.mem_filter.1 ht
        simp only [decide_eq_true_eq] at hcond
        rw [← he]
        refine le_min (by norm_num) (div_nonneg ?_ (by norm_num))
        exact le_of_lt (lt_trans (by norm_num [REVENUE_ZSCORE_THRESHOLD]) hcond.2)

theorem spike_severity_nonneg {m : List MonthlyRow} {n : String} {f : RedFlag}
    (h : f ∈ detect_billing_spikes m n) : 0 ≤ f.severity := by
  unfold detect_billing_spikes at h
  dsimp only at h
  split_ifs at h with h1 h2
  · simp at h
  · simp at h
  · obtain ⟨r, -, he⟩ := List.mem_filterMap.1 h
    split_ifs at he with hc
    · obtain rfl := Option.some.inj he
      refine le_min (by norm_num) (div_nonneg ?_ (by norm_num))
      exact le_of_lt (lt_trans (by norm_num [SPIKE_MULTIPLIER]) hc)

theorem consistency_severity_nonneg {p : List ProcedureRow} {n : String} {f : RedFlag}
    (h : f ∈ detect_suspicious_consistency p n) : 0 ≤ f.severity := by
  unfold detect_suspicious_consistency at h
  dsimp only at h
  split_ifs at h with hc
  · obtain rfl := List.mem_singleton.1 h
    exact le_min (by norm_num)
      (le_of_lt (lt_trans (by norm_num [CONSISTENCY_RATIO_THRESHOLD]) hc.2))
  · simp at h

theorem flagsFor_severity_nonneg {m : List MonthlyRow} {p : List ProcedureRow} {n : String}
    {f : RedFlag} (h : f ∈ flagsFor m p n) : 0 ≤ f.severity := by
  unfold flagsFor at h
  rcases List.mem_append.1 h with h' | h4
  · rcases List.mem_append.1 h' with h'' | h3
    · rcases List.mem_append.1 h'' with h1 | h2
      · exact volume_severity_nonneg h1
      · exact revenue_severity_nonneg h2
    · exact spike_severity_nonneg h3
  · exact consistency_severity_nonneg h4

theorem le_foldl_max : ∀ (l : List ℚ) (a : ℚ), a ≤ l.foldl max a
  | [], a => le_refl a
  | b :: l, a => le_trans (le_max_left a b) (le_foldl_max l (max a b))

theorem mem_le_foldl_max : ∀ (l : List ℚ) (a x : ℚ), x ∈ l → x ≤ l.foldl max a
  | b :: l, a, x, h => by
    rcases List.mem_cons.1 h with rfl | h'
    · exact le_trans (le_max_right a x) (le_foldl_max l (max a x))
    · exact mem_le_foldl_max l (max a b) x h'

theorem foldl_max_cases : ∀ (l : List ℚ) (a : ℚ), l.foldl max a = a ∨ l.foldl max a ∈ l
  | [], _ => Or.inl rfl
  | b :: l, a => by
    rw [List.foldl_cons]
    rcases foldl_max_cases l (max a b) with he | hm
    · rcases max_choice a b with hab | hab
      · exact Or.inl (by rw [he, hab])
      · exact Or.inr (by rw [he, hab]; exact List.mem_cons_self b l)
    · exact Or.inr (List.mem_cons_of_mem b hm)

theorem le_maxSeverity {flags : List RedFlag} {f : RedFlag} (h : f ∈ flags) :
    f.severity ≤ maxSeverity flags := by
  cases flags with
  | nil => simp at h
  | cons g fs =>
    rcases List.mem_cons.1 h with rfl | h'
    · exact le_foldl_max _ _
    · exact mem_le_foldl_max _ _ _ (List.mem_map.2 ⟨f, h', rfl⟩)

theorem maxSeverity_mem {flags : List RedFlag} (h : flags ≠ []) :
    ∃ f ∈ flags, maxSeverity flags = f.severity := by
  cases flags with
  | nil => exact absurd rfl h
  | cons g fs =>
    rcases foldl_max_cases (fs.map (·.severity)) g.severity with he | hm
    · exact ⟨g, List.mem_cons_self g fs, he⟩
    · obtain ⟨f, hf, he⟩ := List.mem_map.1 hm
      exact ⟨f, List.mem_cons_of_mem g hf, he.symm⟩

theorem maxSeverity_nonneg {m : List MonthlyRow} {p : List ProcedureRow} {n : String}
    (h : flagsFor m p n ≠ []) : 0 ≤ maxSeverity (flagsFor m p n) := by
  obtain ⟨f, hf, he⟩ := maxSeverity_mem h
  rw [he]
  exact flagsFor_severity_nonneg hf

theorem distinctTypes_pos {flags : List RedFlag} (h : flags ≠ []) :
    1 ≤ distinctTypes flags := by
  cases flags with
  | nil => exact absurd rfl h
  | cons g fs =>
    have : g.flag_type ∈ ((g :: fs).map (·.flag_type)).dedup :=
      List.mem_dedup.2 (List.mem_map.2 ⟨g, List.mem_cons_self g fs, rfl⟩)
    exact List.length_pos.2 (List.ne_nil_of_mem this)

theorem overallScore_le_one (flags : List RedFlag) : overallScore flags ≤ 1 :=
  min_le_left _ _

theorem overallScore_nonneg {m : List MonthlyRow} {p : List ProcedureRow} {n : String}
    (h : flagsFor m p n ≠ []) : 0 ≤ overallScore (flagsFor m p n) := by
  unfold overallScore
  refine le_min (by norm_num) (add_nonneg (mul_nonneg (maxSeverity_nonneg h) (by norm_num)) ?_)
  exact mul_nonneg (by positivity) (by norm_num)

/-! ### Example tables used by witnesses and the counterexample -/

def npiA : String := "A"

def npiB : String := "B"

/-- Two providers, each with one month of 9000 claims and 200000 paid: both
qualify, both get exactly one volume flag of severity 1, hence equal overall
scores 7/10. -/
def exMonthly : List MonthlyRow :=
  [⟨npiB, 1, 9000, 200000⟩, ⟨npiA, 1, 9000, 200000⟩]

def exFlagVolume : RedFlag := ⟨RedFlagType.VOLUME_IMPOSSIBILITY, 1⟩

def exResA : ScanResult := ⟨npiA, 7/10, [exFlagVolume]⟩

def exResB : ScanResult := ⟨npiB, 7/10, [exFlagVolume]⟩

/-! ### Claim theorems -/

/-- C1: every result of the scan carries a non-empty flag list, its fused
overall score is min(1, max flag severity × 1/2 + number of distinct flag
kinds × 1/5) where `maxSeverity` really is the maximum of the severities,
and this score lies in [0, 1]. -/
theorem overall_score_fused (order : List String) (θ : ℚ) (monthly : List MonthlyRow)
    (procedure : List ProcedureRow) (res : ScanResult)
    (hres : res ∈ scan_all order θ monthly procedure) :
    res.red_flags ≠ [] ∧
    res.overall_score
      = min 1 (maxSeverity res.red_flags * (1/2) + (distinctTypes res.red_flags : ℚ) * (1/5)) ∧
    (∀ f ∈ res.red_flags, f.severity ≤ maxSeverity res.red_flags) ∧
    (∃ f ∈ res.red_flags, maxSeverity res.red_flags = f.severity) ∧
    0 ≤ res.overall_score ∧ res.overall_score ≤ 1 := by
  obtain ⟨n, -, hrow⟩ := mem_scan_all.1 hres
  obtain ⟨hne, -, he⟩ := scanRow_eq_some.1 hrow
  subst he
  exact ⟨hne, rfl, fun f hf => le_maxSeverity hf, maxSeverity_mem hne,
    overallScore_nonneg hne, overallScore_le_one _⟩

/-- C2 (amended): the scan's result list is sorted descending by
overall_score; the relative order of equal-score results is whatever stable
sorting leaves of the arbitrary merged-set iteration order, not entity_id
ascending. This theorem proves the descending sortedness for every
iteration order. -/
theorem scan_sorted_descending (order : List String) (θ : ℚ) (monthly : List MonthlyRow)
    (procedure : List ProcedureRow) :
    (scan_all order θ monthly procedure).Pairwise
      (fun a b => b.overall_score ≤ a.overall_score) :=
  List.sorted_insertionSort byScoreDesc _

/-- C4: the volume-impossibility detector emits, for every monthly row of the
entity whose claim count exceeds the ceiling, a flag of severity
min(1, count/(3·C)); it emits nothing for an entity whose claim count stays
at or below the ceiling in every month; and every flag it emits arises from
such an over-ceiling row with exactly that severity. -/
theorem volume_impossibility_spec (monthly : List MonthlyRow) (npi : String) :
    (∀ r ∈ monthly, r.npi = npi → MAX_CLAIMS_PER_MONTH < r.total_claims →
      (⟨RedFlagType.VOLUME_IMPOSSIBILITY,
        min 1 ((r.total_claims : ℚ) / ((MAX_CLAIMS_PER_MONTH : ℚ) * 3))⟩ : RedFlag)
        ∈ detect_volume_impossibility monthly npi) ∧
    ((∀ r ∈ monthly, r.npi = npi → r.total_claims ≤ MAX_CLAIMS_PER_MONTH) →
      detect_volume_impossibility monthly npi = []) ∧
    (∀ f ∈ detect_volume_impossibility monthly npi,
      f.flag_type = RedFlagType.VOLUME_IMPOSSIBILITY ∧
      ∃ r ∈ monthly, r.npi = npi ∧ MAX_CLAIMS_PER_MONTH < r.total_claims ∧
        f.severity = min 1 ((r.total_claims : ℚ) / ((MAX_CLAIMS_PER_MONTH : ℚ) * 3))) := by
  refine ⟨?_, ?_, ?_⟩
  · intro r hr hnpi hclaims
    unfold detect_volume_impossibility
    exact List.mem_map.2 ⟨r, List.mem_filter.2 ⟨hr, by simp [hnpi, hclaims]⟩, rfl⟩
  · intro hall
    unfold detect_volume_impossibility
    rw [List.map_eq_nil_iff, List.filter_eq_nil_iff]
    intro r hr
    simp only [decide_eq_true_eq, not_and, not_lt]
    intro hnpi
    exact hall r hr hnpi
  · intro f hf
    unfold detect_volume_impossibility at hf
    obtain ⟨r, hr, he⟩ := List.mem_map.1 hf
    obtain ⟨hrm, hcond⟩ := List.mem_filter.1 hr
    simp only [decide_eq_true_eq] at hcond
    exact ⟨by rw [← he], r, hrm, hcond.1, hcond.2, by rw [← he]⟩

/-- C3: an entity whose summed paid amount across all its monthly rows is
below MIN_TOTAL_PAID is excluded from both filtered detector inputs and
never appears in the scan output, for every iteration order and threshold. -/
theorem min_viability_prefilter (monthly : List MonthlyRow) (procedure : List ProcedureRow)
    (order : List String) (θ : ℚ) (npi : String)
    (h : providerTotalPaid monthly npi < MIN_TOTAL_PAID) :
    (∀ r ∈ filteredMonthly monthly, r.npi ≠ npi) ∧
    (∀ r ∈ filteredProcedure monthly procedure, r.npi ≠ npi) ∧
    (∀ res ∈ scan_all order θ monthly procedure, res.npi ≠ npi) := by
  have hq : ¬ qualifies monthly npi = true := by
    rw [qualifies_true_iff]
    rintro ⟨-, hge⟩
    exact absurd hge (not_le.2 h)
  have hm : ∀ r ∈ filteredMonthly monthly, r.npi ≠ npi := by
    intro r hr he
    obtain ⟨-, hqr⟩ := mem_filteredMonthly.1 hr
    rw [he] at hqr
    exact hq hqr
  have hp : ∀ r ∈ filteredProcedure monthly procedure, r.npi ≠ npi := by
    intro r hr he
    obtain ⟨-, hqr⟩ := mem_filteredProcedure.1 hr
    rw [he] at hqr
    exact hq hqr
  refine ⟨hm, hp, ?_⟩
  intro res hres he
  obtain ⟨n, -, hrow⟩ := mem_scan_all.1 hres
  obtain ⟨hne, -, hresEq⟩ := scanRow_eq_some.1 hrow
  have hn : res.npi = n := by rw [hresEq]
  rcases flagsFor_nonempty_mem hne with hmm | hpp
  · obtain ⟨r, hr, hrn⟩ := List.mem_map.1 hmm
    exact hm r hr (hrn.trans (hn.symm.trans he))
  · obtain ⟨r, hr, hrn⟩ := List.mem_map.1 hpp
    exact hp r hr (hrn.trans (hn.symm.trans he))

/-- C5: the revenue-outlier severity min(1, z/10) is monotone in the modified
z-score, and when the scaled MAD is undefined or zero the detector flags no
entity at all. -/
theorem revenue_outlier_monotone_mad_guard (z₁ z₂ : ℚ) (hz : z₁ ≤ z₂)
    (monthly : List MonthlyRow)
    (hmad : scaledMAD monthly = none ∨ scaledMAD monthly = some 0) :
    severityOfZscore z₁ ≤ severityOfZscore z₂ ∧
    ∀ npi, detect_revenue_outliers monthly npi = [] := by
  constructor
  · exact min_le_min le_rfl (by linarith)
  · intro npi
    unfold detect_revenue_outliers
    rcases hmed : medianVal monthly with - | med
    all_goals rcases hmad' : madVal monthly with - | mad
    · rfl
    · rfl
    · rfl
    · dsimp only
      have h0 : mad = 0 := by
        unfold scaledMAD at hmad
        rw [hmad'] at hmad
        rcases hmad with hmad | hmad
        · simp at hmad
        · have hcases : mad = 0 ∨ MAD_SCALE = 0 := by simpa using hmad
          rcases hcases with h | h
          · exact h
          · exact absurd h (by norm_num [MAD_SCALE])
      rw [if_pos h0]

/-- The suspicious-consistency pre-filter is idempotent: removing the
zero-paid rows beforehand changes nothing. -/
theorem filter_self_idem {α : Type} (p : α → Bool) (l : List α) :
    (l.filter p).filter p = l.filter p := by
  induction l with
  | nil => rfl
  | cons a t ih =>
    by_cases h : p a = true
    · simp [List.filter_cons, h, ih]
    · simp [List.filter_cons, h, ih]

theorem nonzeroRows_filter_idem (procedure : List ProcedureRow) (npi : String) :
    nonzeroRows (procedure.filter (fun r => r.total_paid ≠ 0)) npi
      = nonzeroRows procedure npi := by
  unfold nonzeroRows
  rw [filter_self_idem]

theorem totalRows_filter_idem (procedure : List ProcedureRow) (npi : String) :
    totalRows (procedure.filter (fun r => r.total_paid ≠ 0)) npi
      = totalRows procedure npi := by
  unfold totalRows
  rw [nonzeroRows_filter_idem]

theorem topAmountCount_filter_idem (procedure : List ProcedureRow) (npi : String) :
    topAmountCount (procedure.filter (fun r => r.total_paid ≠ 0)) npi
      = topAmountCount procedure npi := by
  unfold topAmountCount
  rw [nonzeroRows_filter_idem]

/-- C6: the consistency detector's statistics are computed after excluding
zero-paid rows (pre-excluding them changes nothing); it never flags an entity
with fewer than CONSISTENCY_MIN_ROWS remaining rows; with enough rows it
flags exactly when top_amount_count/total_rows exceeds the fraction
threshold; and the only flag it ever emits carries severity
min(1, consistency ratio). -/
theorem suspicious_consistency_spec (procedure : List ProcedureRow) (npi : String) :
    detect_suspicious_consistency (procedure.filter (fun r => r.total_paid ≠ 0)) npi
      = detect_suspicious_consistency procedure npi ∧
    (totalRows procedure npi < CONSISTENCY_MIN_ROWS →
      detect_suspicious_consistency procedure npi = []) ∧
    (CONSISTENCY_MIN_ROWS ≤ totalRows procedure npi →
      (detect_suspicious_consistency procedure npi ≠ [] ↔
        CONSISTENCY_RATIO_THRESHOLD <
          (topAmountCount procedure npi : ℚ) / (totalRows procedure npi : ℚ))) ∧
    (∀ f ∈ detect_suspicious_consistency procedure npi,
      f = ⟨RedFlagType.SUSPICIOUS_CONSISTENCY,
        min 1 ((topAmountCount procedure npi : ℚ) / (totalRows procedure npi : ℚ))⟩) := by
  refine ⟨?_, ?_, ?_, ?_⟩
  · unfold detect_suspicious_consistency
    rw [totalRows_filter_idem, topAmountCount_filter_idem]
  · intro hlt
    unfold detect_suspicious_consistency
    dsimp only
    rw [if_neg]
    rintro ⟨hge, -⟩
    exact absurd hge (not_le.2 hlt)
  · intro hge
    unfold detect_suspicious_consistency
    dsimp only
    split_ifs with hc
    · exact ⟨fun _ => hc.2, fun _ => List.cons_ne_nil _ _⟩
    · refine ⟨fun hne => absurd rfl hne, fun hr => absurd ⟨hge, hr⟩ hc⟩
  · intro f hf
    unfold detect_suspicious_consistency at hf
    dsimp only at hf
    split_ifs at hf with hc
    · exact List.mem_singleton.1 hf
    · simp at hf

theorem npi_mem_scan_all {order : List String} {θ : ℚ} {monthly : List MonthlyRow}
    {procedure : List ProcedureRow} {n : String} :
    n ∈ (scan_all order θ monthly procedure).map (·.npi) ↔
      n ∈ order ∧
      flagsFor (filteredMonthly monthly) (filteredProcedure monthly procedure) n ≠ [] ∧
      θ ≤ overallScore
        (flagsFor (filteredMonthly monthly) (filteredProcedure monthly procedure) n) := by
  constructor
  · intro hmem
    obtain ⟨res, hres, hn⟩ := List.mem_map.1 hmem
    obtain ⟨n', hord, hrow⟩ := mem_scan_all.1 hres
    obtain ⟨hne, hθ, he⟩ := scanRow_eq_some.1 hrow
    have hn' : res.npi = n' := by rw [he]
    rw [← hn, hn']
    exact ⟨hord, hne, hθ⟩
  · rintro ⟨hord, hne, hθ⟩
    exact List.mem_map.2
      ⟨⟨n, overallScore (flagsFor (filteredMonthly monthly)
          (filteredProcedure monthly procedure) n),
        flagsFor (filteredMonthly monthly) (filteredProcedure monthly procedure) n⟩,
        mem_scan_all.2 ⟨n, hord, scanRow_eq_some.2 ⟨hne, hθ, rfl⟩⟩, rfl⟩

/-- C7: the set of entities reported at threshold 9/10 is contained in the
set reported at threshold 0; every result reported at threshold 9/10 scores
at least 9/10; and in general a flagged entity appears in the output exactly
when its fused score is not below the caller's threshold. -/
theorem threshold_filtering (monthly : List MonthlyRow) (procedure : List ProcedureRow)
    (order : List String) (hord : admissibleOrder order monthly procedure) (θ : ℚ)
    (n : String) :
    ((scan_all order (9/10) monthly procedure).map (·.npi)
        ⊆ (scan_all order 0 monthly procedure).map (·.npi)) ∧
    (∀ res ∈ scan_all order (9/10) monthly procedure, 9/10 ≤ res.overall_score) ∧
    (n ∈ (scan_all order θ monthly procedure).map (·.npi) ↔
      flagsFor (filteredMonthly monthly) (filteredProcedure monthly procedure) n ≠ [] ∧
      θ ≤ overallScore
        (flagsFor (filteredMonthly monthly) (filteredProcedure monthly procedure) n)) := by
  refine ⟨?_, ?_, ?_⟩
  · intro x hx
    obtain ⟨hord', hne, hθ⟩ := npi_mem_scan_all.1 hx
    exact npi_mem_scan_all.2 ⟨hord', hne, le_trans (by norm_num) hθ⟩
  · intro res hres
    obtain ⟨n', -, hrow⟩ := mem_scan_all.1 hres
    obtain ⟨-, hθ, he⟩ := scanRow_eq_some.1 hrow
    rw [he]
    exact hθ
  · rw [npi_mem_scan_all]
    constructor
    · rintro ⟨-, hne, hθ⟩
      exact ⟨hne, hθ⟩
    · rintro ⟨hne, hθ⟩
      exact ⟨(admissibleOrder_mem hord n).2 hne, hne, hθ⟩

/-- C8: under the MonthlyAggregate data-model invariant — one row per
(entity, month) key — the billing-spike detector never flags an entity with
fewer than 3 distinct months of history. -/
theorem billing_spike_min_history (monthly : List MonthlyRow) (npi : String)
    (hkeys : (monthly.map (fun r => (r.npi, r.service_month))).Nodup)
    (hcount : (((monthly.filter (fun r => r.npi = npi)).map
      (·.service_month)).dedup).length < 3) :
    detect_billing_spikes monthly npi = [] := by
  have hsub : List.Sublist (monthly.filter (fun r => decide (r.npi = npi))) monthly :=
    List.filter_sublist _
  have hnodupP : ((monthly.filter (fun r => decide (r.npi = npi))).map
      (fun r => (r.npi, r.service_month))).Nodup :=
    (hsub.map (fun r => (r.npi, r.service_month))).nodup hkeys
  have hfst : ∀ x ∈ (monthly.filter (fun r => decide (r.npi = npi))).map
      (fun r => (r.npi, r.service_month)), x.1 = npi := by
    intro x hx
    obtain ⟨r, hr, he⟩ := List.mem_map.1 hx
    obtain ⟨-, hcond⟩ := List.mem_filter.1 hr
    simp only [decide_eq_true_eq] at hcond
    rw [← he]
    exact hcond
  have hnodupM : ((monthly.filter (fun r => decide (r.npi = npi))).map
      (·.service_month)).Nodup := by
    have heq : ((monthly.filter (fun r => decide (r.npi = npi))).map
        (fun r => (r.npi, r.service_month))).map Prod.snd
        = (monthly.filter (fun r => decide (r.npi = npi))).map (·.service_month) := by
      rw [List.map_map]
      rfl
    rw [← heq]
    refine hnodupP.map_on ?_
    intro x hx y hy hxy
    have h1 : x.1 = npi := hfst x hx
    have h2 : y.1 = npi := hfst y hy
    exact Prod.ext (h1.trans h2.symm) hxy
  have hlenM : ((monthly.filter (fun r => decide (r.npi = npi))).map
      (·.service_month)).length < 3 := by
    rw [← List.dedup_eq_self.2 hnodupM]
    exact hcount
  have hlt : ((monthly.filter (fun r => decide (r.npi = npi))).insertionSort
      (fun a b => a.service_month ≤ b.service_month)).length < 3 := by
    rw [List.length_insertionSort]
    rw [List.length_map] at hlenM
    exact hlenM
  unfold detect_billing_spikes
  dsimp only
  rw [if_pos hlt]

/-- C9: for a non-empty peer population the percentile rank is 100 times the
inclusive fraction of peers with total at most the entity's total, and the
single maximum-valued entity in the population gets exactly 100. -/
theorem percentile_rank_inclusive_max (t : ℚ) (peers : List ℚ) (hne : peers ≠ [])
    (_hmem : t ∈ peers) (hmax : ∀ p ∈ peers, p ≠ t → p < t) :
    percentile_rank t peers
      = ((peers.filter (fun p => p ≤ t)).length : ℚ) / (peers.length : ℚ) * 100 ∧
    percentile_rank t peers = 100 := by
  refine ⟨rfl, ?_⟩
  have hall : peers.filter (fun p => p ≤ t) = peers := by
    rw [List.filter_eq_self]
    intro p hp
    simp only [decide_eq_true_eq]
    by_cases he : p = t
    · exact he.le
    · exact (hmax p hp he).le
  unfold percentile_rank
  rw [hall]
  have hpos : (0:ℚ) < (peers.length : ℚ) := by
    exact_mod_cast List.length_pos.2 hne
  rw [div_self (ne_of_gt hpos)]
  norm_num

theorem volume_empty_of_no_rows {m : List MonthlyRow} {n : String}
    (h : ∀ r ∈ m, r.npi ≠ n) : detect_volume_impossibility m n = [] := by
  unfold detect_volume_impossibility
  rw [List.map_eq_nil_iff, List.filter_eq_nil_iff]
  intro r hr
  simp only [decide_eq_true_eq]
  rintro ⟨hnpi, -⟩
  exact h r hr hnpi

theorem revenue_empty_of_no_rows {m : List MonthlyRow} {n : String}
    (h : ∀ r ∈ m, r.npi ≠ n) : detect_revenue_outliers m n = [] := by
  unfold detect_revenue_outliers
  rcases hmed : medianVal m with - | med
  all_goals rcases hmad' : madVal m with - | mad
  · rfl
  · rfl
  · rfl
  · dsimp only
    split_ifs with h0
    · rfl
    · rw [List.map_eq_nil_iff, List.filter_eq_nil_iff]
      intro t ht
      simp only [decide_eq_true_eq]
      rintro ⟨hn, -⟩
      obtain ⟨r, hr, hrn⟩ := List.mem_map.1 (providerTotals_npi_mem ht)
      exact h r hr (hrn.trans hn)

theorem spike_empty_of_no_rows {m : List MonthlyRow} {n : String}
    (h : ∀ r ∈ m, r.npi ≠ n) : detect_billing_spikes m n = [] := by
  have hfil : m.filter (fun r => decide (r.npi = n)) = [] := by
    rw [List.filter_eq_nil_iff]
    intro r hr
    simp only [decide_eq_true_eq]
    exact h r hr
  have hlt : ((m.filter (fun r => decide (r.npi = n))).insertionSort
      (fun a b => a.service_month ≤ b.service_month)).length < 3 := by
    rw [List.length_insertionSort, hfil]
    simp
  unfold detect_billing_spikes
  dsimp only
  rw [if_pos hlt]

theorem consistency_empty_of_no_rows {p : List ProcedureRow} {n : String}
    (h : ∀ r ∈ p, r.npi ≠ n) : detect_suspicious_consistency p n = [] := by
  have hnz : nonzeroRows p n = [] := by
    unfold nonzeroRows
    rw [List.filter_eq_nil_iff]
    intro r hr
    simp only [decide_eq_true_eq]
    exact h r (List.mem_of_mem_filter hr)
  unfold detect_suspicious_consistency
  dsimp only
  rw [if_neg]
  rintro ⟨hge, -⟩
  unfold totalRows at hge
  rw [hnz] at hge
  simp [CONSISTENCY_MIN_ROWS] at hge

/-- C10: an entity with procedure rows but no monthly rows is dropped by the
viability filter, which is computed from the monthly table alone: it
survives in neither filtered detector input, every detector returns no flag
for it, and it never appears in the scan output. -/
theorem procedure_only_entity_excluded (monthly : List MonthlyRow)
    (procedure : List ProcedureRow) (order : List String) (θ : ℚ) (npi : String)
    (hnone : ∀ r ∈ monthly, r.npi ≠ npi) :
    (∀ r ∈ filteredProcedure monthly procedure, r.npi ≠ npi) ∧
    flagsFor (filteredMonthly monthly) (filteredProcedure monthly procedure) npi = [] ∧
    (∀ res ∈ scan_all order θ monthly procedure, res.npi ≠ npi) := by
  have hq : ¬ qualifies monthly npi = true := by
    rw [qualifies_true_iff]
    rintro ⟨hmem, -⟩
    obtain ⟨r, hr, hrn⟩ := List.mem_map.1 hmem
    exact hnone r hr hrn
  have hp : ∀ r ∈ filteredProcedure monthly procedure, r.npi ≠ npi := by
    intro r hr he
    obtain ⟨-, hqr⟩ := mem_filteredProcedure.1 hr
    rw [he] at hqr
    exact hq hqr
  have hm : ∀ r ∈ filteredMonthly monthly, r.npi ≠ npi := by
    intro r hr he
    obtain ⟨-, hqr⟩ := mem_filteredMonthly.1 hr
    rw [he] at hqr
    exact hq hqr
  refine ⟨hp, ?_, ?_⟩
  · unfold flagsFor
    rw [volume_empty_of_no_rows hm, revenue_empty_of_no_rows hm,
      spike_empty_of_no_rows hm, consistency_empty_of_no_rows hp]
    rfl
  · intro res hres he
    obtain ⟨n, -, hrow⟩ := mem_scan_all.1 hres
    obtain ⟨hne, -, hresEq⟩ := scanRow_eq_some.1 hrow
    have hn : res.npi = n := by rw [hresEq]
    rcases flagsFor_nonempty_mem hne with hmm | hpp
    · obtain ⟨r, hr, hrn⟩ := List.mem_map.1 hmm
      exact hm r hr (hrn.trans (hn.symm.trans he))
    · obtain ⟨r, hr, hrn⟩ := List.mem_map.1 hpp
      exact hp r hr (hrn.trans (hn.symm.trans he))

/-! ### Concrete instances: the tie-order counterexample and the witnesses

The rational arithmetic operations are irreducible by default; they are made
semireducible locally so the kernel can evaluate the engine on the concrete
tables. -/

/-- One provider, one month, total paid 50 — far below the viability
threshold. -/
def exSmallMonthly : List MonthlyRow := [⟨npiA, 1, 10, 50⟩]

/-- One provider with exactly two distinct months of history. -/
def exTwoMonths : List MonthlyRow := [⟨npiA, 1, 10, 50⟩, ⟨npiA, 2, 10, 60⟩]

/-- One provider billing 99.99 on 40 of 44 procedure rows. -/
def exProcedure : List ProcedureRow := [⟨npiA, 9999/100, 40⟩, ⟨npiA, 5, 4⟩]

/-- A procedure table whose only provider has no monthly rows at all. -/
def exProcedureOnly : List ProcedureRow := [⟨npiB, 5, 40⟩]

section
attribute [local semireducible] Rat.mul Rat.inv Rat.add Rat.sub

/-- C2 counterexample: for `exMonthly` both [B, A] and [A, B] are admissible
iteration orders of the merged flagged set; they produce the two equal-score
results in opposite orders, so the tie between equal overall scores is
neither broken by entity_id ascending nor independent of the arbitrary set
iteration order. -/
theorem scan_tie_order_counterexample :
    admissibleOrder [npiB, npiA] exMonthly [] ∧
    admissibleOrder [npiA, npiB] exMonthly [] ∧
    scan_all [npiB, npiA] 0 exMonthly [] = [exResB, exResA] ∧
    scan_all [npiA, npiB] 0 exMonthly [] = [exResA, exResB] ∧
    exResA.overall_score = exResB.overall_score ∧
    npiA < npiB := by
  refine ⟨?_, ?_, by decide, by decide, by decide, ?_⟩
  · unfold admissibleOrder
    decide
  · unfold admissibleOrder
    decide
  · rw [String.lt_iff_toList_lt]
    decide

/-- C1 witness: the fused-score theorem applied to the concrete result for
provider B of `exMonthly`. -/
theorem overall_score_fused_witness :
    exResB ∈ scan_all [npiB, npiA] 0 exMonthly [] ∧
    (exResB.red_flags ≠ [] ∧
     exResB.overall_score = min 1 (maxSeverity exResB.red_flags * (1/2)
       + (distinctTypes exResB.red_flags : ℚ) * (1/5)) ∧
     (∀ f ∈ exResB.red_flags, f.severity ≤ maxSeverity exResB.red_flags) ∧
     (∃ f ∈ exResB.red_flags, maxSeverity exResB.red_flags = f.severity) ∧
     0 ≤ exResB.overall_score ∧ exResB.overall_score ≤ 1) :=
  ⟨by decide, overall_score_fused [npiB, npiA] 0 exMonthly [] exResB (by decide)⟩

/-- C3 witness: the pre-filter theorem applied to a provider with total paid
50. -/
theorem min_viability_prefilter_witness :
    providerTotalPaid exSmallMonthly npiA < MIN_TOTAL_PAID ∧
    ((∀ r ∈ filteredMonthly exSmallMonthly, r.npi ≠ npiA) ∧
     (∀ r ∈ filteredProcedure exSmallMonthly [], r.npi ≠ npiA) ∧
     (∀ res ∈ scan_all [] 0 exSmallMonthly [], res.npi ≠ npiA)) :=
  ⟨by decide, min_viability_prefilter exSmallMonthly [] [] 0 npiA (by decide)⟩

/-- C4 witness: the volume theorem's flag-membership part at the over-ceiling
row of provider A in `exMonthly`. -/
theorem volume_impossibility_spec_witness :
    (⟨RedFlagType.VOLUME_IMPOSSIBILITY,
      min 1 (((9000 : ℤ) : ℚ) / ((MAX_CLAIMS_PER_MONTH : ℚ) * 3))⟩ : RedFlag)
      ∈ detect_volume_impossibility exMonthly npiA :=
  (volume_impossibility_spec exMonthly npiA).1 ⟨npiA, 1, 9000, 200000⟩
    (by decide) (by decide) (by decide)

/-- C5 witness: the monotonicity and MAD-guard theorem at z-scores 0 ≤ 1 and
the empty monthly table (whose scaled MAD is undefined). -/
theorem revenue_outlier_monotone_mad_guard_witness :
    (0 : ℚ) ≤ 1 ∧ scaledMAD ([] : List MonthlyRow) = none ∧
    (severityOfZscore 0 ≤ severityOfZscore 1 ∧
     ∀ npi, detect_revenue_outliers ([] : List MonthlyRow) npi = []) :=
  ⟨by norm_num, rfl,
    revenue_outlier_monotone_mad_guard 0 1 (by norm_num) [] (Or.inl rfl)⟩

/-- C6 witness: the consistency theorem's enough-rows iff at the concrete
40-of-44 table. -/
theorem suspicious_consistency_spec_witness :
    CONSISTENCY_MIN_ROWS ≤ totalRows exProcedure npiA ∧
    (detect_suspicious_consistency exProcedure npiA ≠ [] ↔
      CONSISTENCY_RATIO_THRESHOLD <
        (topAmountCount exProcedure npiA : ℚ) / (totalRows exProcedure npiA : ℚ)) :=
  ⟨by decide, (suspicious_consistency_spec exProcedure npiA).2.2.1 (by decide)⟩

/-- C7 witness: the threshold-filtering theorem at the admissible order
[B, A] for `exMonthly`, threshold 1/2 and entity A. -/
theorem threshold_filtering_witness :
    admissibleOrder [npiB, npiA] exMonthly [] ∧
    (((scan_all [npiB, npiA] (9/10) exMonthly []).map (·.npi)
        ⊆ (scan_all [npiB, npiA] 0 exMonthly []).map (·.npi)) ∧
     (∀ res ∈ scan_all [npiB, npiA] (9/10) exMonthly [], 9/10 ≤ res.overall_score) ∧
     (npiA ∈ (scan_all [npiB, npiA] (1/2) exMonthly []).map (·.npi) ↔
       flagsFor (filteredMonthly exMonthly) (filteredProcedure exMonthly []) npiA ≠ [] ∧
       1/2 ≤ overallScore
         (flagsFor (filteredMonthly exMonthly) (filteredProcedure exMonthly []) npiA))) :=
  ⟨by unfold admissibleOrder; decide,
    threshold_filtering exMonthly [] [npiB, npiA]
      (by unfold admissibleOrder; decide) (1/2) npiA⟩

/-- C8 witness: the minimum-history theorem at a duplicate-free table with
two distinct months. -/
theorem billing_spike_min_history_witness :
    (exTwoMonths.map (fun r => (r.npi, r.service_month))).Nodup ∧
    (((exTwoMonths.filter (fun r => r.npi = npiA)).map
      (·.service_month)).dedup).length < 3 ∧
    detect_billing_spikes exTwoMonths npiA = [] :=
  ⟨by decide, by decide,
    billing_spike_min_history exTwoMonths npiA (by decide) (by decide)⟩

/-- C9 witness: the percentile theorem at the sole maximum 5 of the
population [1, 5]. -/
theorem percentile_rank_inclusive_max_witness :
    ([(1 : ℚ), 5] ≠ []) ∧ ((5 : ℚ) ∈ [(1 : ℚ), 5]) ∧
    (∀ p ∈ [(1 : ℚ), 5], p ≠ 5 → p < 5) ∧
    (percentile_rank 5 [(1 : ℚ), 5]
        = (([(1 : ℚ), 5].filter (fun p => p ≤ 5)).length : ℚ)
          / (([(1 : ℚ), 5].length : ℚ)) * 100 ∧
     percentile_rank 5 [(1 : ℚ), 5] = 100) :=
  ⟨by decide, by decide, by decide,
    percentile_rank_inclusive_max 5 [1, 5] (by decide) (by decide) (by decide)⟩

/-- C10 witness: the procedure-only exclusion theorem for provider B, absent
from `exSmallMonthly` but present in `exProcedureOnly`. -/
theorem procedure_only_entity_excluded_witness :
    (∀ r ∈ exSmallMonthly, r.npi ≠ npiB) ∧
    ((∀ r ∈ filteredProcedure exSmallMonthly exProcedureOnly, r.npi ≠ npiB) ∧
     flagsFor (filteredMonthly exSmallMonthly)
       (filteredProcedure exSmallMonthly exProcedureOnly) npiB = [] ∧
     (∀ res ∈ scan_all [] 0 exSmallMonthly exProcedureOnly, res.npi ≠ npiB)) :=
  ⟨by decide,
    procedure_only_entity_excluded exSmallMonthly exProcedureOnly [] 0 npiB (by decide)⟩

end

end FraudHunter
